import Mathlib

/-!
Shallow embedding of `snapcraft.storeapi._client.Client`
(src/snapcraft/storeapi/_client.py) and proofs about its request pipeline:
header merging, URL resolution via `urllib.parse.urljoin`, retry-policy
construction, and the classification of transport faults and server errors.

The transport layer (`requests.Session` with the mounted
`HTTPAdapter`/`urllib3.util.retry.Retry`) and the `_agent` module are not part
of the given sources; they are modelled from the spec where marked.
-/

namespace Snapcraft

/-- Python `dict` with string keys and values: an association list in insertion
order, with unique keys maintained by `dictSet`. -/
abbrev Dict := List (String × String)

/-- Python dict lookup `d[k]`, as an `Option` (keys are unique in a dict, so the
first binding is the binding). -/
def dictGet? : Dict → String → Option String
  | [], _ => none
  | (k', v) :: rest, k => if k' = k then some v else dictGet? rest k

/-- Python dict membership `k in d`. -/
def dictHasKey (d : Dict) (k : String) : Bool := (dictGet? d k).isSome

/-- Python `d[k] = v`: replace the value in place if the key exists (keeping its
position), otherwise append the new binding. -/
def dictSet : Dict → String → String → Dict
  | [], k, v => [(k, v)]
  | (k', v') :: rest, k, v =>
    if k' = k then (k, v) :: rest else (k', v') :: dictSet rest k v

/-- Python `d.update(other)`: set each binding of `other` in `d`, in order. -/
def dictUpdate (d other : Dict) : Dict :=
  other.foldl (fun acc kv => dictSet acc kv.1 kv.2) d

/-- An HTTP response as seen by `Client.request` (`requests.Response`): status
code, headers and body. -/
structure Response where
  status : Nat
  headers : Dict
  body : String
deriving DecidableEq, Repr

/-- A transport-level connection fault, the causes behind
`requests.exceptions.ConnectionError`. -/
inductive ConnFault
  | connectionRefused
  | dnsFailure
  | connectionReset
  | connectTimeout
deriving DecidableEq, Repr

/-- The transport exceptions `Client.request` catches:
`requests.exceptions.ConnectionError` (wrapping the underlying connection
fault, also when raised after the adapter's retries are exhausted) and
`requests.exceptions.RetryError`. -/
inductive TransportError
  | connectionError (cause : ConnFault)
  | retryError
deriving DecidableEq, Repr

/-- The typed errors raised by `Client.request` (`snapcraft.storeapi.errors`):
`StoreNetworkError` wraps the transport exception as its cause,
`StoreServerError` carries the full offending response. -/
inductive StoreError
  | storeNetworkError (cause : TransportError)
  | storeServerError (response : Response)
deriving DecidableEq, Repr

/-- The `urllib3.util.retry.Retry` configuration built in `Client.__init__`. -/
structure RetryPolicy where
  total : Int
  backoffFactor : Int
  statusForcelist : List Nat
deriving DecidableEq, Repr

/-- The arguments of one transport-level HTTP exchange, as handed by
`Client.request` to `self.session.request`. -/
structure RequestContext where
  method : String
  url : String
  headers : Dict
  params : Option (List (String × String))
  kwargs : List (String × String)
deriving DecidableEq, Repr

/-- The outcome of a single low-level HTTP attempt. -/
inductive Attempt
  | fault (f : ConnFault)
  | response (r : Response)
deriving DecidableEq, Repr

/-- A transport: what the network does on the n-th attempt of an exchange. -/
abbrev Transport := RequestContext → Nat → Attempt

/-- Modelled from the spec: the Connection Manager — `requests.Session` with the
`HTTPAdapter`/`Retry` mounted in `Client.__init__`; its retry loop lives in
`requests`/`urllib3`, outside this repository's sources. Per spec §4.1 it
retries a connection fault up to `max_attempts` times in total, raising a
retry-exhausted `ConnectionError` if all attempts fail, and it retries
responses whose status is in `statusForcelist` on the same schedule, returning
the final response once retries are exhausted. Returns the outcome together
with the number of attempts performed from attempt `attempt` with `fuel`
retries left. -/
def executeAux (policy : RetryPolicy) (t : Transport) (ctx : RequestContext) :
    Nat → Nat → Except TransportError Response × Nat
  | attempt, fuel =>
    match t ctx attempt with
    | .fault f =>
      match fuel with
      | 0 => (.error (.connectionError f), 1)
      | fuel' + 1 =>
        let res := executeAux policy t ctx (attempt + 1) fuel'
        (res.1, res.2 + 1)
    | .response r =>
      if r.status ∈ policy.statusForcelist then
        match fuel with
        | 0 => (.ok r, 1)
        | fuel' + 1 =>
          let res := executeAux policy t ctx (attempt + 1) fuel'
          (res.1, res.2 + 1)
      else (.ok r, 1)

/-- Modelled from the spec: one call of the Connection Manager
(`self.session.request` in `Client.request`), making up to `policy.total`
transport attempts. -/
def execute (policy : RetryPolicy) (t : Transport) (ctx : RequestContext) :
    Except TransportError Response × Nat :=
  executeAux policy t ctx 0 (policy.total - 1).toNat

/-- Modelled from the spec: the mandatory identification header set built in
`Client.__init__` as `{"User-Agent": _agent.get_user_agent()}`; the `_agent`
module is outside the given sources, so the agent string is a parameter. -/
def userAgentHeaders (agent : String) : Dict := [("User-Agent", agent)]

/-- The store HTTP client (`snapcraft.storeapi._client.Client`): the root URL,
the mandatory `_snapcraft_headers`, and the retry policy mounted on its
session. -/
structure Client where
  rootUrl : String
  snapcraftHeaders : Dict
  retries : RetryPolicy
deriving DecidableEq, Repr

/-- Process environment, as read by `os.environ.get`. -/
abbrev Env := String → Option String

/-- Python `int(os.environ.get(key, default))` in `Client.__init__`: the
variable's value parsed as an integer when set (`int()` raises on an
unparsable string, so construction fails), the integer default otherwise. -/
def envInt (env : Env) (key : String) (dflt : Int) : Option Int :=
  match env key with
  | some s => s.toInt?
  | none => some dflt

/-- The retry policy constructed in `Client.__init__`:
`Retry(total=int(os.environ.get("STORE_RETRIES", 5)),
backoff_factor=int(os.environ.get("STORE_BACKOFF", 2)),
status_forcelist=[104, 500, 502, 503, 504])`. -/
def mkRetryPolicy (env : Env) : Option RetryPolicy := do
  let total ← envInt env "STORE_RETRIES" 5
  let backoff ← envInt env "STORE_BACKOFF" 2
  pure ⟨total, backoff, [104, 500, 502, 503, 504]⟩

/-- `Client.__init__(conf, root_url)`: store the root URL, build the retry
policy from the environment, and set the snapcraft identification headers. -/
def mkClient (env : Env) (agent : String) (rootUrl : String) : Option Client := do
  let policy ← mkRetryPolicy env
  pure ⟨rootUrl, userAgentHeaders agent, policy⟩

/-- The header-merge step of `Client.request`:
`if headers: headers.update(self._snapcraft_headers) else: headers =
self._snapcraft_headers`. A `None` or empty caller mapping is falsy, so the
client's headers are used alone; otherwise the caller's mapping is updated
with the client's headers, which therefore win on collision. -/
def mergeHeaders (snap : Dict) (headers : Option Dict) : Dict :=
  match headers with
  | some h => if h.isEmpty then snap else dictUpdate h snap
  | none => snap

/-- The caller's `headers` argument after `Client.request` returns: Python's
`headers.update(self._snapcraft_headers)` mutates the caller's dict in place
when it is truthy (non-empty); a `None` or empty mapping is left untouched. -/
def callerHeadersAfter (snap : Dict) (headers : Option Dict) : Option Dict :=
  match headers with
  | none => none
  | some h => some (if h.isEmpty then h else dictUpdate h snap)

/-- Characters allowed in a URL scheme (`urllib.parse.scheme_chars`). -/
def isSchemeChar (c : Char) : Bool :=
  c.isAlpha || c.isDigit || c = '+' || c = '-' || c = '.'

/-- The components `urllib.parse.urlsplit` extracts from the URLs this client
deals in; modelled for URLs without query, fragment or parameter components,
which the store URLs passed through `Client.request` do not carry. -/
structure SplitUrl where
  scheme : List Char
  netloc : List Char
  path : List Char
deriving DecidableEq, Repr

/-- The scheme-splitting step of `urllib.parse.urlsplit`: the text before the
first `:` is recognised as the scheme when non-empty, letter-initial and made
of scheme characters (and is lowercased, as `urlsplit` does); the result pairs
the scheme with the remainder. -/
def splitScheme (cs : List Char) : List Char × List Char :=
  if (cs.takeWhile (· ≠ ':')).length < cs.length ∧ cs.takeWhile (· ≠ ':') ≠ [] ∧
      (cs.takeWhile (· ≠ ':')).headI.isAlpha ∧ (cs.takeWhile (· ≠ ':')).all isSchemeChar then
    ((cs.takeWhile (· ≠ ':')).map Char.toLower, cs.drop ((cs.takeWhile (· ≠ ':')).length + 1))
  else ([], cs)

/-- The netloc-splitting step of `urllib.parse.urlsplit`: a leading `//`
introduces the netloc, which extends to the next `/`; the result pairs the
netloc with the path. -/
def splitNetloc : List Char → List Char × List Char
  | '/' :: '/' :: rest =>
    (rest.takeWhile (· ≠ '/'), rest.drop (rest.takeWhile (· ≠ '/')).length)
  | rest => ([], rest)

/-- `urllib.parse.urlsplit` on the modelled grammar: scheme, then netloc, then
path. -/
def splitUrl (cs : List Char) : SplitUrl :=
  ⟨(splitScheme cs).1, (splitNetloc (splitScheme cs).2).1,
    (splitNetloc (splitScheme cs).2).2⟩

/-- `urllib.parse.urlunsplit` on the modelled grammar: reassemble
`scheme://netloc/path`. -/
def unsplitUrl (u : SplitUrl) : List Char :=
  let url := u.path
  let url :=
    if u.netloc ≠ [] ∨ url.take 2 = ['/', '/'] then
      '/' :: '/' :: (u.netloc ++ (if url ≠ [] ∧ url.take 1 ≠ ['/'] then '/' :: url else url))
    else url
  if u.scheme ≠ [] then u.scheme ++ ':' :: url else url

/-- `urllib.parse.uses_relative`: the schemes that take part in relative-URL
resolution. -/
def usesRelative : List (List Char) :=
  ["", "ftp", "http", "gopher", "nntp", "imap", "wais", "file", "https", "shttp",
   "mms", "prospero", "rtsp", "rtspu", "sftp", "svn", "svn+ssh", "ws", "wss"].map
    String.toList

/-- `urllib.parse.uses_netloc`: the schemes whose URLs carry a netloc. -/
def usesNetloc : List (List Char) :=
  ["", "ftp", "http", "gopher", "nntp", "telnet", "imap", "wais", "file", "mms",
   "https", "shttp", "snews", "prospero", "rtsp", "rtspu", "rsync", "svn",
   "svn+ssh", "sftp", "nfs", "git", "git+ssh", "ws", "wss"].map String.toList

/-- The tail step of Python's `segments[1:-1] = filter(None, segments[1:-1])`:
drop empty segments except in last position. -/
def filterMiddleTail : List (List Char) → List (List Char)
  | [] => []
  | [a] => [a]
  | a :: b :: rest =>
    if a = [] then filterMiddleTail (b :: rest) else a :: filterMiddleTail (b :: rest)

/-- Python's `segments[1:-1] = filter(None, segments[1:-1])` in `urljoin`: drop
empty segments other than the first and the last. -/
def filterMiddle : List (List Char) → List (List Char)
  | [] => []
  | a :: rest => a :: filterMiddleTail rest

/-- The `'..'`/`'.'` resolution loop of `urllib.parse.urljoin`: `..` pops the
last resolved segment (ignoring underflow), `.` is dropped, any other segment
is appended. -/
def resolveDots (acc : List (List Char)) : List (List Char) → List (List Char)
  | [] => acc
  | seg :: rest =>
    if seg = ['.', '.'] then resolveDots acc.dropLast rest
    else if seg = ['.'] then resolveDots acc rest
    else resolveDots (acc ++ [seg]) rest

/-- The scheme of the joined URL in `urljoin`: `urlparse(url, bscheme, ...)`
defaults a scheme-less url's scheme to the base's. -/
def joinScheme (u b : SplitUrl) : List Char :=
  if u.scheme = [] then b.scheme else u.scheme

/-- The netloc of the joined URL in `urljoin` (when the url carries none of its
own): `netloc = bnetloc` for schemes in `uses_netloc`. -/
def joinNetloc (u b : SplitUrl) : List Char :=
  if joinScheme u b ∈ usesNetloc then b.netloc else u.netloc

/-- Python's `'/'.join(resolved_path) or '/'` in `urljoin`. -/
def orSlash (l : List Char) : List Char := if l = [] then ['/'] else l

/-- The dot-segment stage of `urljoin`: resolve `.`/`..`, and keep a trailing
slash when the last input segment was itself a dot segment. -/
def dotsResolved (segments : List (List Char)) : List (List Char) :=
  if segments.getLast? = some ['.'] ∨ segments.getLast? = some ['.', '.'] then
    resolveDots [] segments ++ [[]]
  else resolveDots [] segments

/-- The segment-joining stage of `urljoin`: resolve dots, re-join on `/`, and
fall back to `/` when the path comes out empty. -/
def joinSegments (segments : List (List Char)) : List Char :=
  orSlash (List.intercalate ['/'] (dotsResolved segments))

/-- Python's `base_parts` in `urljoin`: the base path split on `/`, its last
segment deleted when it is not empty (the last item is not a directory). -/
def baseDirParts (bpath : List Char) : List (List Char) :=
  if (bpath.splitOn '/').getLast? ≠ some [] then (bpath.splitOn '/').dropLast
  else bpath.splitOn '/'

/-- The path-resolution stage of `urljoin`: an absolute url path keeps its own
segments; a relative one is appended to the base's directory segments, with
empty middle segments filtered out. -/
def joinPath (bpath upath : List Char) : List Char :=
  if upath.take 1 = ['/'] then joinSegments (upath.splitOn '/')
  else joinSegments (filterMiddle (baseDirParts bpath ++ upath.splitOn '/'))

/-- `urljoin` after both operands are parsed: a url whose scheme differs from
the base's, or falls outside `uses_relative`, is returned as-is; a url
carrying its own netloc keeps all of its own components; a url with an empty
path inherits the base's path; otherwise the url inherits the base's netloc
and its path is resolved against the base's path. -/
def urljoinParsed (b u : SplitUrl) (url : List Char) : List Char :=
  if joinScheme u b ≠ b.scheme ∨ joinScheme u b ∉ usesRelative then url
  else if joinScheme u b ∈ usesNetloc ∧ u.netloc ≠ [] then
    unsplitUrl ⟨joinScheme u b, u.netloc, u.path⟩
  else if u.path = [] then
    unsplitUrl ⟨joinScheme u b, joinNetloc u b, b.path⟩
  else
    unsplitUrl ⟨joinScheme u b, joinNetloc u b, joinPath b.path u.path⟩

/-- `urllib.parse.urljoin(base, url)` — CPython's algorithm on the modelled
grammar: empty operands short-circuit, then the parsed operands are joined. -/
def urljoinList (base url : List Char) : List Char :=
  if base = [] then url
  else if url = [] then base
  else urljoinParsed (splitUrl base) (splitUrl url) url

/-- `urllib.parse.urljoin` on strings. -/
def urljoin (base url : String) : String := ⟨urljoinList base.data url.data⟩

/-- The URL-resolution step of `Client.request`:
`final_url = urllib.parse.urljoin(self.root_url, url)`. -/
def Client.finalUrl (c : Client) (url : String) : String := urljoin c.rootUrl url

/-- The `RequestContext` a call of `Client.request` hands to the session:
method, resolved URL, merged headers, params and extra kwargs. -/
def Client.context (c : Client) (method url : String)
    (params : Option (List (String × String))) (headers : Option Dict)
    (kwargs : List (String × String)) : RequestContext :=
  ⟨method, c.finalUrl url, mergeHeaders c.snapcraftHeaders headers, params, kwargs⟩

/-- `Client.request(method, url, params=None, headers=None, **kwargs)`
(src/snapcraft/storeapi/_client.py): merge the headers (the mandatory client
headers winning), resolve the url against the root, dispatch through the
session (whose retry behaviour is the spec-modelled `execute`), re-raise a
caught `ConnectionError`/`RetryError` as `StoreNetworkError` with the original
exception as cause, raise `StoreServerError` carrying any response whose
status code is `>= 500`, and return every other response unmodified. -/
def Client.request (c : Client) (t : Transport) (method url : String)
    (params : Option (List (String × String))) (headers : Option Dict)
    (kwargs : List (String × String)) : Except StoreError Response :=
  match (execute c.retries t (c.context method url params headers kwargs)).1 with
  | .error e => .error (.storeNetworkError e)
  | .ok response =>
    if 500 ≤ response.status then .error (.storeServerError response)
    else .ok response

/-- The number of transport attempts a call of `Client.request` performs. -/
def Client.attemptsMade (c : Client) (t : Transport) (method url : String)
    (params : Option (List (String × String))) (headers : Option Dict)
    (kwargs : List (String × String)) : Nat :=
  (execute c.retries t (c.context method url params headers kwargs)).2

/-- `Client.get(url, **kwargs)`: `self.request("GET", url, **kwargs)`. -/
def Client.get (c : Client) (t : Transport) (url : String)
    (params : Option (List (String × String))) (headers : Option Dict)
    (kwargs : List (String × String)) : Except StoreError Response :=
  c.request t "GET" url params headers kwargs

/-- `Client.post(url, **kwargs)`: `self.request("POST", url, **kwargs)`. -/
def Client.post (c : Client) (t : Transport) (url : String)
    (params : Option (List (String × String))) (headers : Option Dict)
    (kwargs : List (String × String)) : Except StoreError Response :=
  c.request t "POST" url params headers kwargs

/-- `Client.put(url, **kwargs)`: `self.request("PUT", url, **kwargs)`. -/
def Client.put (c : Client) (t : Transport) (url : String)
    (params : Option (List (String × String))) (headers : Option Dict)
    (kwargs : List (String × String)) : Except StoreError Response :=
  c.request t "PUT" url params headers kwargs

/-- A demonstration client (root URL, agent string and default policy as built
by `Client.__init__` with an empty environment). -/
def demoClient : Client :=
  ⟨"http://dashboard.snapcraft.io/dev/api/", userAgentHeaders "snapcraft/3.0",
    ⟨5, 2, [104, 500, 502, 503, 504]⟩⟩

/-- A transport answering every attempt with the same response. -/
def alwaysStatus (s : Nat) : Transport := fun _ _ => .response ⟨s, [], "body"⟩

/-- A transport failing every attempt with a connection reset. -/
def alwaysReset : Transport := fun _ _ => .fault .connectionReset

/-- An absolute `scheme://netloc/path` URL of the modelled grammar, as a
character list. -/
def renderUrl (s n p : List Char) : List Char :=
  s ++ ':' :: '/' :: '/' :: (n ++ p)

/-- Well-formedness of the pieces of an absolute URL in the modelled grammar:
a non-empty, lowercase, letter-initial scheme made of scheme characters, a
non-empty netloc without `/`, and a path that is empty or starts with `/`. -/
def WfAbs (s n p : List Char) : Prop :=
  s ≠ [] ∧ s.headI.isAlpha = true ∧ s.all isSchemeChar = true ∧
  s.map Char.toLower = s ∧ n ≠ [] ∧ ('/' : Char) ∉ n ∧
  (p = [] ∨ p.take 1 = ['/'])

instance (s n p : List Char) : Decidable (WfAbs s n p) := by
  unfold WfAbs
  infer_instance

/- ### Dictionary lemmas -/

theorem dictGet?_dictSet_self (d : Dict) (k v : String) :
    dictGet? (dictSet d k v) k = some v := by
  induction d with
  | nil => simp [dictSet, dictGet?]
  | cons kv rest ih =>
    obtain ⟨k', v'⟩ := kv
    by_cases h : k' = k
    · simp [dictSet, dictGet?, h]
    · simp [dictSet, dictGet?, h, ih]

theorem dictGet?_dictSet_ne (d : Dict) (k v k' : String) (h : k ≠ k') :
    dictGet? (dictSet d k v) k' = dictGet? d k' := by
  induction d with
  | nil => simp [dictSet, dictGet?, h]
  | cons kv rest ih =>
    obtain ⟨k₀, v₀⟩ := kv
    by_cases h₀ : k₀ = k
    · subst h₀
      simp [dictSet, dictGet?, h]
    · simp only [dictSet, if_neg h₀, dictGet?]
      split
      · rfl
      · exact ih

theorem dictUpdate_single (d : Dict) (k v : String) :
    dictUpdate d [(k, v)] = dictSet d k v := rfl

/- ### Transport-layer lemmas -/

theorem executeAux_all_faults (policy : RetryPolicy) (t : Transport)
    (ctx : RequestContext) (f : ConnFault) (hf : ∀ n, t ctx n = .fault f) :
    ∀ fuel attempt,
      executeAux policy t ctx attempt fuel = (.error (.connectionError f), fuel + 1) := by
  intro fuel
  induction fuel with
  | zero => intro attempt; simp [executeAux, hf]
  | succ fuel' ih => intro attempt; simp [executeAux, hf, ih]

theorem execute_all_faults (policy : RetryPolicy) (t : Transport)
    (ctx : RequestContext) (f : ConnFault) (hf : ∀ n, t ctx n = .fault f) :
    execute policy t ctx = (.error (.connectionError f), (policy.total - 1).toNat + 1) := by
  unfold execute
  exact executeAux_all_faults policy t ctx f hf _ 0

/- ### Construction lemmas -/

theorem mkRetryPolicy_eq (env : Env) (p : RetryPolicy)
    (hp : mkRetryPolicy env = some p) :
    envInt env "STORE_RETRIES" 5 = some p.total ∧
    envInt env "STORE_BACKOFF" 2 = some p.backoffFactor ∧
    p.statusForcelist = [104, 500, 502, 503, 504] := by
  unfold mkRetryPolicy at hp
  cases h1 : envInt env "STORE_RETRIES" 5 with
  | none => rw [h1] at hp; simp at hp
  | some t =>
    rw [h1] at hp
    cases h2 : envInt env "STORE_BACKOFF" 2 with
    | none => rw [h2] at hp; simp at hp
    | some b =>
      rw [h2] at hp
      simp only [Option.pure_def, Option.bind_eq_bind, Option.some_bind,
        Option.some.injEq] at hp
      subst hp
      exact ⟨rfl, rfl, rfl⟩

theorem mkClient_eq (env : Env) (agent root : String) (c : Client)
    (hc : mkClient env agent root = some c) :
    mkRetryPolicy env = some c.retries ∧ c.rootUrl = root ∧
    c.snapcraftHeaders = userAgentHeaders agent := by
  unfold mkClient at hc
  cases hp : mkRetryPolicy env with
  | none => rw [hp] at hc; simp at hc
  | some p =>
    rw [hp] at hc
    simp only [Option.pure_def, Option.bind_eq_bind, Option.some_bind,
      Option.some.injEq] at hc
    subst hc
    exact ⟨rfl, rfl, rfl⟩

/- ### Claim C1: responses with status >= 500 become StoreServerError -/

/-- C1: every response received by `request` whose status code is at least 500
(including one returned by the transport layer after its automatic retries
were exhausted) is raised as `StoreServerError` carrying that full response,
rather than being returned. -/
theorem request_raises_storeServerError_on_5xx (c : Client) (t : Transport)
    (method url : String) (params : Option (List (String × String)))
    (headers : Option Dict) (kwargs : List (String × String)) (r : Response)
    (hresp : (execute c.retries t (c.context method url params headers kwargs)).1 = .ok r)
    (h500 : 500 ≤ r.status) :
    c.request t method url params headers kwargs = .error (.storeServerError r) := by
  unfold Client.request
  rw [hresp]
  simp [h500]

/-- Witness for C1: a transport answering 500 on every attempt exhausts the
five attempts of the demonstration client's policy, and the final 500 response
is raised as `StoreServerError`. -/
theorem request_raises_storeServerError_on_5xx_witness :
    demoClient.request (alwaysStatus 500) "GET" "snap-push/" none none [] =
      .error (.storeServerError ⟨500, [], "body"⟩) :=
  request_raises_storeServerError_on_5xx demoClient (alwaysStatus 500) "GET"
    "snap-push/" none none [] ⟨500, [], "body"⟩ rfl (by decide)

/- ### Claim C2: transport faults become StoreNetworkError -/

/-- C2: every transport exception raised during dispatch (a `ConnectionError`
for refusal, DNS failure or reset — also after retry exhaustion — or a
`RetryError`) is caught and re-raised as `StoreNetworkError` wrapping the
original exception as its cause; `request` never lets it escape raw and never
swallows it. -/
theorem request_raises_storeNetworkError_on_fault (c : Client) (t : Transport)
    (method url : String) (params : Option (List (String × String)))
    (headers : Option Dict) (kwargs : List (String × String)) (e : TransportError)
    (herr : (execute c.retries t (c.context method url params headers kwargs)).1 = .error e) :
    c.request t method url params headers kwargs = .error (.storeNetworkError e) := by
  unfold Client.request
  rw [herr]

/-- Witness for C2: a transport that resets every connection makes `request`
raise `StoreNetworkError` wrapping the reset `ConnectionError`. -/
theorem request_raises_storeNetworkError_on_fault_witness :
    demoClient.request alwaysReset "GET" "snap-push/" none none [] =
      .error (.storeNetworkError (.connectionError .connectionReset)) :=
  request_raises_storeNetworkError_on_fault demoClient alwaysReset "GET"
    "snap-push/" none none [] (.connectionError .connectionReset) rfl

/- ### Claim C4: responses below 500 are returned unmodified -/

/-- C4: every dispatched call whose final response has a status code below 500
returns that raw response object unmodified and raises no error. -/
theorem request_returns_sub500_response (c : Client) (t : Transport)
    (method url : String) (params : Option (List (String × String)))
    (headers : Option Dict) (kwargs : List (String × String)) (r : Response)
    (hresp : (execute c.retries t (c.context method url params headers kwargs)).1 = .ok r)
    (hlt : r.status < 500) :
    c.request t method url params headers kwargs = .ok r := by
  unfold Client.request
  rw [hresp]
  simp [Nat.not_le_of_lt hlt]

/-- Witness for C4: a transport returning 404 makes `request` return the
response unmodified, its 404 status accessible to the caller. -/
theorem request_returns_sub500_response_witness :
    demoClient.request (alwaysStatus 404) "GET" "missing/" none none [] =
      .ok ⟨404, [], "body"⟩ ∧
    (⟨404, [], "body"⟩ : Response).status = 404 :=
  ⟨request_returns_sub500_response demoClient (alwaysStatus 404) "GET"
    "missing/" none none [] ⟨404, [], "body"⟩ rfl (by decide), rfl⟩

/- ### Claim C8: connection faults exhaust exactly max_attempts attempts -/

/-- C8: with a transport that fails with a connection reset on every attempt,
`request` raises `StoreNetworkError` after exactly `max_attempts`
(`retries.total`) transport attempts have been performed — not before and not
after. -/
theorem request_network_fault_exhausts_retries (c : Client) (t : Transport)
    (method url : String) (params : Option (List (String × String)))
    (headers : Option Dict) (kwargs : List (String × String))
    (hf : ∀ ctx n, t ctx n = .fault .connectionReset)
    (hpos : 1 ≤ c.retries.total) :
    c.request t method url params headers kwargs =
      .error (.storeNetworkError (.connectionError .connectionReset)) ∧
    (c.attemptsMade t method url params headers kwargs : Int) = c.retries.total := by
  have hex := execute_all_faults c.retries t
    (c.context method url params headers kwargs) .connectionReset
    (fun n => hf _ n)
  constructor
  · unfold Client.request
    rw [hex]
  · unfold Client.attemptsMade
    rw [hex]
    simp only
    omega

/-- Witness for C8: the demonstration client (policy total 5) performs exactly
five attempts against an always-resetting transport before raising
`StoreNetworkError`. -/
theorem request_network_fault_exhausts_retries_witness :
    demoClient.request alwaysReset "GET" "snap-push/" none none [] =
      .error (.storeNetworkError (.connectionError .connectionReset)) ∧
    (demoClient.attemptsMade alwaysReset "GET" "snap-push/" none none [] : Int) = 5 :=
  request_network_fault_exhausts_retries demoClient alwaysReset "GET"
    "snap-push/" none none [] (fun _ _ => rfl) (by decide)

/- ### Claim C9: the verb wrappers fix the method and forward everything -/

/-- C9: `get`, `post` and `put` equal `request` applied to the fixed method
strings `"GET"`, `"POST"` and `"PUT"`, with every other argument forwarded
unchanged. -/
theorem verb_wrappers_forward_to_request (c : Client) (t : Transport)
    (url : String) (params : Option (List (String × String)))
    (headers : Option Dict) (kwargs : List (String × String)) :
    c.get t url params headers kwargs = c.request t "GET" url params headers kwargs ∧
    c.post t url params headers kwargs = c.request t "POST" url params headers kwargs ∧
    c.put t url params headers kwargs = c.request t "PUT" url params headers kwargs :=
  ⟨rfl, rfl, rfl⟩

/- ### Claim C7: the retry policy and its environment tunables -/

/-- C7: `Client.__init__` reads the retry policy from three tunables: max
attempts defaults to 5 and is overridden by `STORE_RETRIES`, the backoff base
defaults to 2 and is overridden by `STORE_BACKOFF` (each independently), and
the retryable status code set is the fixed list [104, 500, 502, 503, 504]. -/
theorem mkClient_retry_policy_tunables (env : Env) (agent root : String)
    (c : Client) (hc : mkClient env agent root = some c) :
    c.retries.statusForcelist = [104, 500, 502, 503, 504] ∧
    (env "STORE_RETRIES" = none → c.retries.total = 5) ∧
    (∀ s, env "STORE_RETRIES" = some s → s.toInt? = some c.retries.total) ∧
    (env "STORE_BACKOFF" = none → c.retries.backoffFactor = 2) ∧
    (∀ s, env "STORE_BACKOFF" = some s → s.toInt? = some c.retries.backoffFactor) := by
  obtain ⟨hpol, -, -⟩ := mkClient_eq env agent root c hc
  obtain ⟨ht, hb, hl⟩ := mkRetryPolicy_eq env c.retries hpol
  refine ⟨hl, ?_, ?_, ?_, ?_⟩
  · intro hnone
    unfold envInt at ht
    rw [hnone] at ht
    exact (Option.some.injEq _ _).mp ht.symm
  · intro s hs
    unfold envInt at ht
    rw [hs] at ht
    exact ht
  · intro hnone
    unfold envInt at hb
    rw [hnone] at hb
    exact (Option.some.injEq _ _).mp hb.symm
  · intro s hs
    unfold envInt at hb
    rw [hs] at hb
    exact hb

/-- Witness for C7: with an empty environment the constructed client carries
the default policy: total 5, backoff 2, forcelist [104, 500, 502, 503, 504]. -/
theorem mkClient_retry_policy_tunables_witness :
    (⟨"http://r/", userAgentHeaders "a", ⟨5, 2, [104, 500, 502, 503, 504]⟩⟩ : Client).retries.statusForcelist
      = [104, 500, 502, 503, 504] ∧
    (⟨"http://r/", userAgentHeaders "a", ⟨5, 2, [104, 500, 502, 503, 504]⟩⟩ : Client).retries.total = 5 ∧
    (⟨"http://r/", userAgentHeaders "a", ⟨5, 2, [104, 500, 502, 503, 504]⟩⟩ : Client).retries.backoffFactor = 2 := by
  have h := mkClient_retry_policy_tunables (fun _ => none) "a" "http://r/"
    ⟨"http://r/", userAgentHeaders "a", ⟨5, 2, [104, 500, 502, 503, 504]⟩⟩ rfl
  exact ⟨h.1, h.2.1 rfl, h.2.2.2.1 rfl⟩

/- ### Claim C3: header merge — mandatory headers win, caller keys survive -/

/-- C3: in the merged header set used by `request`, every key of the caller's
mapping `H` that is not a mandatory key keeps its caller value, every
mandatory key carries the mandatory value even when `H` supplies a conflicting
one, and with no caller headers the mandatory headers are used alone. -/
theorem dictUpdate_userAgent (H : Dict) (agent : String) :
    dictUpdate H (userAgentHeaders agent) = dictSet H "User-Agent" agent := rfl

theorem mergeHeaders_some_eq (agent : String) (H : Dict) :
    mergeHeaders (userAgentHeaders agent) (some H) = dictSet H "User-Agent" agent := by
  cases H with
  | nil => rfl
  | cons kv rest => rfl

theorem dictHasKey_userAgent (agent k : String) :
    dictHasKey (userAgentHeaders agent) k = true ↔ k = "User-Agent" := by
  simp only [dictHasKey, userAgentHeaders, dictGet?]
  by_cases hk : "User-Agent" = k
  · simp [hk]
  · simp [hk, Ne.symm hk]

/-- C3: in the merged header set used by `request`, every key of the caller's
mapping `H` that is not a mandatory key keeps its caller value, every
mandatory key carries the mandatory value even when `H` supplies a conflicting
one, and with no caller headers the mandatory headers are used alone. -/
theorem mergeHeaders_mandatory_wins (agent : String) (H : Dict) (k : String) :
    mergeHeaders (userAgentHeaders agent) none = userAgentHeaders agent ∧
    (dictHasKey (userAgentHeaders agent) k = false →
      dictGet? (mergeHeaders (userAgentHeaders agent) (some H)) k = dictGet? H k) ∧
    (dictHasKey (userAgentHeaders agent) k = true →
      dictGet? (mergeHeaders (userAgentHeaders agent) (some H)) k =
        dictGet? (userAgentHeaders agent) k) := by
  refine ⟨rfl, ?_, ?_⟩
  · intro hfalse
    have hne : ¬ k = "User-Agent" := by
      intro hk
      rw [(dictHasKey_userAgent agent k).mpr hk] at hfalse
      simp at hfalse
    rw [mergeHeaders_some_eq, dictGet?_dictSet_ne _ _ _ _ (fun h => hne h.symm)]
  · intro htrue
    have hk := (dictHasKey_userAgent agent k).mp htrue
    subst hk
    rw [mergeHeaders_some_eq, dictGet?_dictSet_self]
    rfl

/-- Witness for C3: merging `{"X-Test": "1", "User-Agent": "evil"}` keeps the
caller's `X-Test` and overrides the conflicting `User-Agent` with the
client's. -/
theorem mergeHeaders_mandatory_wins_witness :
    dictGet? (mergeHeaders (userAgentHeaders "snapcraft/3.0")
      (some [("X-Test", "1"), ("User-Agent", "evil")])) "X-Test" = some "1" ∧
    dictGet? (mergeHeaders (userAgentHeaders "snapcraft/3.0")
      (some [("X-Test", "1"), ("User-Agent", "evil")])) "User-Agent" =
        some "snapcraft/3.0" := by
  have h1 := mergeHeaders_mandatory_wins "snapcraft/3.0"
    [("X-Test", "1"), ("User-Agent", "evil")] "X-Test"
  have h2 := mergeHeaders_mandatory_wins "snapcraft/3.0"
    [("X-Test", "1"), ("User-Agent", "evil")] "User-Agent"
  refine ⟨?_, ?_⟩
  · rw [h1.2.1 (by decide)]; rfl
  · rw [h2.2.2 (by decide)]; rfl

/- ### Claim C10: request mutates a non-empty caller headers mapping in place -/

/-- C10: a non-empty caller-supplied headers mapping is mutated in place by
`request` — after the call it equals itself updated with the client's
mandatory headers (colliding keys overwritten) and contains the mandatory
`User-Agent` entry; an empty mapping is treated like `None` and left
unmutated. -/
theorem request_mutates_caller_headers (agent : String) (H : Dict)
    (hne : H ≠ []) :
    callerHeadersAfter (userAgentHeaders agent) (some H) =
      some (dictUpdate H (userAgentHeaders agent)) ∧
    dictGet? (dictUpdate H (userAgentHeaders agent)) "User-Agent" = some agent ∧
    callerHeadersAfter (userAgentHeaders agent) (some []) = some [] ∧
    callerHeadersAfter (userAgentHeaders agent) none = none := by
  refine ⟨?_, ?_, rfl, rfl⟩
  · simp [callerHeadersAfter, List.isEmpty_iff, hne]
  · rw [dictUpdate_userAgent, dictGet?_dictSet_self]

/-- Witness for C10: the caller's `{"Accept": "json"}` object ends up holding
both its own entry and the client's `User-Agent` after the call. -/
theorem request_mutates_caller_headers_witness :
    callerHeadersAfter (userAgentHeaders "snapcraft/3.0")
      (some [("Accept", "json")]) =
      some [("Accept", "json"), ("User-Agent", "snapcraft/3.0")] ∧
    dictGet? (dictUpdate [("Accept", "json")] (userAgentHeaders "snapcraft/3.0"))
      "User-Agent" = some "snapcraft/3.0" := by
  have h := request_mutates_caller_headers "snapcraft/3.0" [("Accept", "json")]
    (by decide)
  exact ⟨by rw [h.1]; rfl, h.2.1⟩

/- ### URL parsing lemmas -/

theorem takeWhile_append_cons {α : Type} (p : α → Bool) (l : List α) (a : α)
    (rest : List α) (hl : ∀ x ∈ l, p x = true) (ha : p a = false) :
    (l ++ a :: rest).takeWhile p = l := by
  induction l with
  | nil => simp [List.takeWhile_cons, ha]
  | cons x t ih =>
    have hx := hl x (List.mem_cons_self x t)
    rw [List.cons_append, List.takeWhile_cons, if_pos hx]
    rw [ih (fun y hy => hl y (List.mem_cons_of_mem x hy))]

theorem drop_append_cons {α : Type} (l : List α) (a : α) (rest : List α) :
    (l ++ a :: rest).drop (l.length + 1) = rest := by
  have h : l ++ a :: rest = (l ++ [a]) ++ rest := by simp
  rw [h, List.drop_left' (by simp)]

theorem isSchemeChar_not_colon {c : Char} (h : isSchemeChar c = true) :
    ¬ c = ':' := by
  intro hc
  rw [hc] at h
  exact absurd h (by decide)

theorem isSchemeChar_not_slash {c : Char} (h : isSchemeChar c = true) :
    ¬ c = '/' := by
  intro hc
  rw [hc] at h
  exact absurd h (by decide)

theorem takeWhile_ne_colon_scheme (s rest : List Char)
    (hsc : s.all isSchemeChar = true) :
    (s ++ ':' :: rest).takeWhile (· ≠ ':') = s := by
  refine takeWhile_append_cons _ s ':' rest ?_ (by simp)
  intro x hx
  simp only [decide_eq_true_eq]
  exact isSchemeChar_not_colon (by simpa using List.all_eq_true.mp hsc x hx)

theorem splitScheme_of_scheme (s rest : List Char) (hs : s ≠ [])
    (hsa : s.headI.isAlpha = true) (hsc : s.all isSchemeChar = true) :
    splitScheme (s ++ ':' :: rest) = (s.map Char.toLower, rest) := by
  have htw := takeWhile_ne_colon_scheme s rest hsc
  unfold splitScheme
  rw [htw]
  rw [if_pos ⟨by simp, hs, hsa, hsc⟩]
  rw [drop_append_cons]

theorem splitScheme_of_no_colon (cs : List Char)
    (h : cs.takeWhile (· ≠ ':') = cs) : splitScheme cs = ([], cs) := by
  unfold splitScheme
  rw [h, if_neg]
  intro hcond
  exact absurd hcond.1 (lt_irrefl _)

theorem splitScheme_of_slash (p₂ : List Char) :
    splitScheme ('/' :: p₂) = ([], '/' :: p₂) := by
  unfold splitScheme
  rw [if_neg]
  intro hcond
  obtain ⟨-, -, h3, -⟩ := hcond
  have htw : ('/' :: p₂).takeWhile (· ≠ ':') = '/' :: p₂.takeWhile (· ≠ ':') := by
    rw [List.takeWhile_cons, if_pos (by decide)]
  rw [htw] at h3
  have h3' : ('/' : Char).isAlpha = true := h3
  exact absurd h3' (by decide)

theorem splitNetloc_of_netloc (n p : List Char) (hn : ('/' : Char) ∉ n)
    (hp : p = [] ∨ p.take 1 = ['/']) :
    splitNetloc ('/' :: '/' :: (n ++ p)) = (n, p) := by
  have hnall : ∀ x ∈ n, (fun c => decide (c ≠ '/')) x = true := by
    intro x hx
    simp only [decide_eq_true_eq]
    exact fun hc => hn (hc ▸ hx)
  have htw : (n ++ p).takeWhile (· ≠ '/') = n := by
    rcases hp with hp | hp
    · subst hp
      rw [List.append_nil]
      exact List.takeWhile_eq_self_iff.mpr hnall
    · rcases p with - | ⟨c, p₂⟩
      · simp at hp
      · have hc : c = '/' := by simpa using hp
        subst hc
        exact takeWhile_append_cons _ n '/' p₂ hnall (by simp)
  show ((n ++ p).takeWhile (· ≠ '/'),
      (n ++ p).drop ((n ++ p).takeWhile (· ≠ '/')).length) = (n, p)
  rw [htw, List.drop_left]

theorem splitNetloc_other (cs : List Char) (h : cs.take 2 ≠ ['/', '/']) :
    splitNetloc cs = ([], cs) := by
  unfold splitNetloc
  split
  · rename_i rest
    exact absurd rfl h
  · rfl

theorem splitUrl_render (s n p : List Char) (hs : s ≠ [])
    (hsa : s.headI.isAlpha = true) (hsc : s.all isSchemeChar = true)
    (hsl : s.map Char.toLower = s) (hn : ('/' : Char) ∉ n)
    (hp : p = [] ∨ p.take 1 = ['/']) :
    splitUrl (renderUrl s n p) = ⟨s, n, p⟩ := by
  unfold splitUrl renderUrl
  rw [splitScheme_of_scheme s ('/' :: '/' :: (n ++ p)) hs hsa hsc, hsl]
  rw [splitNetloc_of_netloc n p hn hp]

theorem take_two_ne_slashes (c : Char) (tail : List Char) (hc : c ≠ '/') :
    (c :: tail).take 2 ≠ ['/', '/'] := by
  rw [List.take_succ_cons]
  intro hcontra
  simp only [List.cons.injEq] at hcontra
  exact hc hcontra.1

theorem splitUrl_of_slash (p₂ : List Char) (h2 : p₂.take 1 ≠ ['/']) :
    splitUrl ('/' :: p₂) = ⟨[], [], '/' :: p₂⟩ := by
  have hne : ('/' :: p₂).take 2 ≠ ['/', '/'] := by
    rw [List.take_succ_cons]
    intro hcontra
    simp only [List.cons.injEq] at hcontra
    exact h2 hcontra.2
  unfold splitUrl
  rw [splitScheme_of_slash, splitNetloc_other _ hne]

theorem splitUrl_relative (p : List Char) (hcolon : (':' : Char) ∉ p)
    (hshape : ∃ c tail, p = c :: tail ∧ c ≠ '/') :
    splitUrl p = ⟨[], [], p⟩ := by
  obtain ⟨c, tail, rfl, hc⟩ := hshape
  have htw : (c :: tail).takeWhile (· ≠ ':') = c :: tail := by
    refine List.takeWhile_eq_self_iff.mpr ?_
    intro x hx
    simp only [decide_eq_true_eq]
    exact fun hcx => hcolon (hcx ▸ hx)
  unfold splitUrl
  rw [splitScheme_of_no_colon _ htw, splitNetloc_other _ (take_two_ne_slashes c tail hc)]

theorem usesRelative_sub_usesNetloc :
    ∀ s ∈ usesRelative, s ∈ usesNetloc := by decide

theorem unsplitUrl_render (s n p : List Char) (hs : s ≠ []) (hn : n ≠ [])
    (hp : p = [] ∨ p.take 1 = ['/']) :
    unsplitUrl ⟨s, n, p⟩ = renderUrl s n p := by
  unfold unsplitUrl renderUrl
  rcases hp with hp | hp
  · subst hp
    simp [hn, hs]
  · have hinner : ¬(p ≠ [] ∧ p.take 1 ≠ ['/']) := fun h => h.2 hp
    simp [hn, hs, hinner]

/- ### Claim C5: absolute URLs pass through URL resolution unchanged -/

theorem urljoinParsed_absolute (b : SplitUrl) (s n p url : List Char)
    (hs : s ≠ []) (hn : n ≠ []) (hp : p = [] ∨ p.take 1 = ['/'])
    (hurl : url = renderUrl s n p) :
    urljoinParsed b ⟨s, n, p⟩ url = url := by
  have hjs : joinScheme ⟨s, n, p⟩ b = s := by
    unfold joinScheme
    rw [if_neg]
    exact hs
  unfold urljoinParsed
  rw [hjs]
  by_cases hcond : s ≠ b.scheme ∨ s ∉ usesRelative
  · rw [if_pos hcond]
  · rw [if_neg hcond]
    push_neg at hcond
    rw [if_pos ⟨usesRelative_sub_usesNetloc s hcond.2, hn⟩, hurl]
    exact unsplitUrl_render s n p hs hn hp

theorem urljoinList_absolute (base s n p : List Char) (h : WfAbs s n p) :
    urljoinList base (renderUrl s n p) = renderUrl s n p := by
  obtain ⟨hs, hsa, hsc, hsl, hn, hnsl, hp⟩ := h
  by_cases hbase : base = []
  · simp [urljoinList, hbase]
  · have hurl : renderUrl s n p ≠ [] := by simp [renderUrl, hs]
    unfold urljoinList
    rw [if_neg hbase, if_neg hurl,
      splitUrl_render s n p hs hsa hsc hsl hnsl hp]
    exact urljoinParsed_absolute (splitUrl base) s n p _ hs hn hp rfl

/-- C5: the URL-resolution step of `request` (`urljoin(self.root_url, url)`)
returns an absolute URL unchanged, ignoring the client's root. -/
theorem finalUrl_absolute_is_identity (c : Client) (s n p : List Char)
    (h : WfAbs s n p) :
    c.finalUrl ⟨renderUrl s n p⟩ = ⟨renderUrl s n p⟩ := by
  show urljoin c.rootUrl ⟨renderUrl s n p⟩ = ⟨renderUrl s n p⟩
  unfold urljoin
  congr 1
  exact urljoinList_absolute c.rootUrl.data s n p h

/-- Witness for C5: resolving the absolute
`http://upload.example.com/unscanned-upload/` against the demonstration
client's root returns it unchanged. -/
theorem finalUrl_absolute_is_identity_witness :
    demoClient.finalUrl "http://upload.example.com/unscanned-upload/" =
      "http://upload.example.com/unscanned-upload/" := by
  have h := finalUrl_absolute_is_identity demoClient
    "http".data "upload.example.com".data "/unscanned-upload/".data
    (by decide)
  exact h

/- ### Segment-list lemmas for relative resolution -/

theorem intercalate_single_seg (x : Char) (a : List Char) :
    List.intercalate [x] [a] = a := by
  simp [List.intercalate]

theorem intercalate_cons_of_ne_nil (x : Char) (a : List Char)
    (l : List (List Char)) (hl : l ≠ []) :
    List.intercalate [x] (a :: l) = a ++ x :: List.intercalate [x] l := by
  cases l with
  | nil => contradiction
  | cons b t => simp [List.intercalate]

theorem intercalate_append_ne_nil (x : Char) (as bs : List (List Char))
    (ha : as ≠ []) (hb : bs ≠ []) :
    List.intercalate [x] (as ++ bs) =
      List.intercalate [x] as ++ x :: List.intercalate [x] bs := by
  induction as with
  | nil => contradiction
  | cons a t ih =>
    cases t with
    | nil =>
      rw [List.singleton_append, intercalate_cons_of_ne_nil x a bs hb,
        intercalate_single_seg]
    | cons a2 t2 =>
      rw [List.cons_append, intercalate_cons_of_ne_nil x a ((a2 :: t2) ++ bs) (by simp),
        ih (by simp), intercalate_cons_of_ne_nil x a (a2 :: t2) (by simp)]
      simp

theorem intercalate_cons_cons_shape (x c : Char) (seg : List Char)
    (l : List (List Char)) :
    ∃ tail, List.intercalate [x] ((c :: seg) :: l) = c :: tail := by
  cases l with
  | nil => exact ⟨seg, by rw [intercalate_single_seg]⟩
  | cons b t =>
    refine ⟨seg ++ x :: List.intercalate [x] (b :: t), ?_⟩
    rw [intercalate_cons_of_ne_nil x _ _ (by simp)]
    rfl

theorem eq_or_mem_of_mem_intercalate (x c : Char) :
    ∀ (l : List (List Char)), c ∈ List.intercalate [x] l →
      c = x ∨ ∃ seg ∈ l, c ∈ seg
  | [], h => by simp [List.intercalate] at h
  | [a], h => by
    rw [intercalate_single_seg] at h
    exact Or.inr ⟨a, by simp, h⟩
  | a :: b :: t, h => by
    rw [intercalate_cons_of_ne_nil x a (b :: t) (by simp)] at h
    rcases List.mem_append.mp h with h1 | h2
    · exact Or.inr ⟨a, by simp, h1⟩
    · rcases List.mem_cons.mp h2 with h3 | h4
      · exact Or.inl h3
      · rcases eq_or_mem_of_mem_intercalate x c (b :: t) h4 with h5 | ⟨seg, hseg, hc⟩
        · exact Or.inl h5
        · exact Or.inr ⟨seg, List.mem_cons_of_mem a hseg, hc⟩

theorem resolveDots_no_dots (l : List (List Char)) :
    ∀ acc, (∀ seg ∈ l, seg ≠ ['.'] ∧ seg ≠ ['.', '.']) →
      resolveDots acc l = acc ++ l := by
  induction l with
  | nil => intro acc _; simp [resolveDots]
  | cons seg rest ih =>
    intro acc hl
    have hseg := hl seg (List.mem_cons_self seg rest)
    unfold resolveDots
    rw [if_neg hseg.2, if_neg hseg.1,
      ih (acc ++ [seg]) (fun s hs => hl s (List.mem_cons_of_mem seg hs))]
    simp

theorem filterMiddleTail_keep_nonempty (l : List (List Char)) :
    ∀ rest, rest ≠ [] → (∀ seg ∈ l, seg ≠ []) →
      filterMiddleTail (l ++ rest) = l ++ filterMiddleTail rest := by
  induction l with
  | nil => intro rest _ _; rfl
  | cons a t ih =>
    intro rest hrest hl
    have ha := hl a (List.mem_cons_self a t)
    rcases hlr : t ++ rest with - | ⟨b, tr⟩
    · exact absurd (List.append_eq_nil.mp hlr).2 hrest
    · rw [List.cons_append, hlr]
      simp only [filterMiddleTail]
      rw [if_neg ha, ← hlr,
        ih rest hrest (fun s hs => hl s (List.mem_cons_of_mem a hs)),
        List.cons_append]

theorem filterMiddleTail_cons_nil (rest : List (List Char)) (hrest : rest ≠ []) :
    filterMiddleTail ([] :: rest) = filterMiddleTail rest := by
  cases rest with
  | nil => contradiction
  | cons b t => simp [filterMiddleTail]

theorem filterMiddleTail_last (last : List Char) :
    filterMiddleTail [last] = [last] := rfl

theorem intercalate_nil_cons (x : Char) (rest : List (List Char))
    (hrest : rest ≠ []) :
    List.intercalate [x] ([] :: rest) = x :: List.intercalate [x] rest := by
  rw [intercalate_cons_of_ne_nil x [] rest hrest]
  rfl

theorem relative_path_shape (pinit : List (List Char)) (plast : List Char)
    (hpI : ∀ seg ∈ pinit, seg ≠ [] ∧ ('/' : Char) ∉ seg)
    (hplast : ('/' : Char) ∉ plast) (hne : pinit ≠ [] ∨ plast ≠ []) :
    ∃ c tail, List.intercalate ['/'] (pinit ++ [plast]) = c :: tail ∧ c ≠ '/' := by
  cases pinit with
  | nil =>
    cases hpl : plast with
    | nil =>
      rcases hne with hne | hne
      · exact absurd rfl hne
      · exact absurd hpl hne
    | cons c t =>
      refine ⟨c, t, ?_, ?_⟩
      · rw [List.nil_append, intercalate_single_seg]
      · intro hc
        refine hplast ?_
        rw [hpl]
        exact List.mem_cons.mpr (Or.inl hc.symm)
  | cons seg t =>
    have hseg := hpI seg (List.mem_cons_self seg t)
    cases seg with
    | nil => exact absurd rfl hseg.1
    | cons c rest =>
      obtain ⟨tail, htail⟩ := intercalate_cons_cons_shape '/' c rest (t ++ [plast])
      refine ⟨c, tail, ?_, ?_⟩
      · rw [List.cons_append]
        exact htail
      · intro hc
        exact hseg.2 (List.mem_cons.mpr (Or.inl hc.symm))

theorem colon_not_mem_intercalate (segs : List (List Char))
    (h : ∀ seg ∈ segs, (':' : Char) ∉ seg) :
    (':' : Char) ∉ List.intercalate ['/'] segs := by
  intro hc
  rcases eq_or_mem_of_mem_intercalate '/' ':' segs hc with h1 | ⟨seg, hseg, hcs⟩
  · exact absurd h1 (by decide)
  · exact h seg hseg hcs

/- ### joinPath lemmas -/

theorem joinPath_absolute_path (bp pa : List Char) (hpa : pa.take 1 = ['/'])
    (hdots : ∀ seg ∈ pa.splitOn '/', seg ≠ ['.'] ∧ seg ≠ ['.', '.']) :
    joinPath bp pa = pa := by
  unfold joinPath
  rw [if_pos hpa]
  unfold joinSegments dotsResolved
  have hlast : ¬((pa.splitOn '/').getLast? = some ['.'] ∨
      (pa.splitOn '/').getLast? = some ['.', '.']) := by
    rintro (hl | hl)
    · exact (hdots _ (List.mem_of_getLast?_eq_some hl)).1 rfl
    · exact (hdots _ (List.mem_of_getLast?_eq_some hl)).2 rfl
  rw [if_neg hlast, resolveDots_no_dots _ [] hdots, List.nil_append,
    List.intercalate_splitOn]
  unfold orSlash
  rw [if_neg]
  intro hnil
  rw [hnil] at hpa
  simp at hpa

theorem joinPath_relative_merge (bsegs pinit : List (List Char))
    (plast : List Char)
    (hb : ∀ seg ∈ bsegs, seg ≠ [] ∧ ('/' : Char) ∉ seg ∧ seg ≠ ['.'] ∧ seg ≠ ['.', '.'])
    (hpI : ∀ seg ∈ pinit, seg ≠ [] ∧ ('/' : Char) ∉ seg ∧ seg ≠ ['.'] ∧ seg ≠ ['.', '.'])
    (hpl : ('/' : Char) ∉ plast ∧ plast ≠ ['.'] ∧ plast ≠ ['.', '.'])
    (hne : pinit ≠ [] ∨ plast ≠ []) :
    joinPath (List.intercalate ['/'] (([] :: bsegs) ++ [[]]))
      (List.intercalate ['/'] (pinit ++ [plast])) =
      List.intercalate ['/'] (([] :: bsegs) ++ [[]]) ++
        List.intercalate ['/'] (pinit ++ [plast]) := by
  obtain ⟨c, tail, hshape, hc⟩ := relative_path_shape pinit plast
    (fun seg hs => ⟨(hpI seg hs).1, (hpI seg hs).2.1⟩) hpl.1 hne
  have hp1 : ¬(List.intercalate ['/'] (pinit ++ [plast])).take 1 = ['/'] := by
    rw [hshape, List.take_succ_cons]
    intro hcontra
    simp only [List.cons.injEq] at hcontra
    exact hc hcontra.1
  have hbsplit : (List.intercalate ['/'] (([] :: bsegs) ++ [[]])).splitOn '/' =
      ([] :: bsegs) ++ [[]] := by
    refine List.splitOn_intercalate _ '/' ?_ (by simp)
    intro l hl
    rcases List.mem_append.mp hl with h1 | h2
    · rcases List.mem_cons.mp h1 with h3 | h4
      · subst h3; simp
      · exact (hb l h4).2.1
    · rcases List.mem_singleton.mp h2 with rfl
      simp
  have hpsplit : (List.intercalate ['/'] (pinit ++ [plast])).splitOn '/' =
      pinit ++ [plast] := by
    refine List.splitOn_intercalate _ '/' ?_ (by simp)
    intro l hl
    rcases List.mem_append.mp hl with h1 | h2
    · exact (hpI l h1).2.1
    · rcases List.mem_singleton.mp h2 with rfl
      exact hpl.1
  have hbase : baseDirParts (List.intercalate ['/'] (([] :: bsegs) ++ [[]])) =
      ([] :: bsegs) ++ [[]] := by
    unfold baseDirParts
    rw [hbsplit, if_neg]
    intro hcontra
    exact hcontra (List.getLast?_concat _)
  have hsegments : filterMiddle ((([] :: bsegs) ++ [[]]) ++ (pinit ++ [plast])) =
      [] :: (bsegs ++ (pinit ++ [plast])) := by
    have h1 : (([] :: bsegs) ++ [[]]) ++ (pinit ++ [plast]) =
        [] :: (bsegs ++ ([] :: (pinit ++ [plast]))) := by
      simp
    rw [h1]
    show [] :: filterMiddleTail (bsegs ++ ([] :: (pinit ++ [plast]))) =
      [] :: (bsegs ++ (pinit ++ [plast]))
    rw [filterMiddleTail_keep_nonempty bsegs ([] :: (pinit ++ [plast]))
        (by simp) (fun seg hs => (hb seg hs).1),
      filterMiddleTail_cons_nil (pinit ++ [plast]) (by simp),
      filterMiddleTail_keep_nonempty pinit [plast] (by simp)
        (fun seg hs => (hpI seg hs).1),
      filterMiddleTail_last]
  have hlastseg : ([] :: (bsegs ++ (pinit ++ [plast]))).getLast? = some plast := by
    have h2 : [] :: (bsegs ++ (pinit ++ [plast])) =
        ([] :: (bsegs ++ pinit)) ++ [plast] := by
      simp
    rw [h2, List.getLast?_concat]
  have hnodots : ∀ seg ∈ [] :: (bsegs ++ (pinit ++ [plast])),
      seg ≠ ['.'] ∧ seg ≠ ['.', '.'] := by
    intro seg hs
    rcases List.mem_cons.mp hs with h3 | h4
    · subst h3; exact ⟨by simp, by simp⟩
    · rcases List.mem_append.mp h4 with h5 | h6
      · exact ⟨(hb seg h5).2.2.1, (hb seg h5).2.2.2⟩
      · rcases List.mem_append.mp h6 with h7 | h8
        · exact ⟨(hpI seg h7).2.2.1, (hpI seg h7).2.2.2⟩
        · rcases List.mem_singleton.mp h8 with rfl
          exact ⟨hpl.2.1, hpl.2.2⟩
  have hcond : ¬(([] :: (bsegs ++ (pinit ++ [plast]))).getLast? = some ['.'] ∨
      ([] :: (bsegs ++ (pinit ++ [plast]))).getLast? = some ['.', '.']) := by
    rw [hlastseg]
    rintro (h | h) <;> rw [Option.some.injEq] at h
    · exact hpl.2.1 h
    · exact hpl.2.2 h
  have hjoined : List.intercalate ['/'] ([] :: (bsegs ++ (pinit ++ [plast]))) =
      List.intercalate ['/'] (([] :: bsegs) ++ [[]]) ++
        List.intercalate ['/'] (pinit ++ [plast]) := by
    rw [intercalate_nil_cons '/' _ (by simp)]
    cases bsegs with
    | nil =>
      rw [List.nil_append]
      have hbp : List.intercalate ['/'] (([] :: ([] : List (List Char))) ++ [[]]) =
          ['/'] := by
        rw [List.cons_append, List.nil_append,
          intercalate_nil_cons '/' [[]] (by simp), intercalate_single_seg]
      rw [hbp, List.singleton_append]
    | cons b t =>
      rw [intercalate_append_ne_nil '/' (b :: t) (pinit ++ [plast]) (by simp) (by simp)]
      have hbp : List.intercalate ['/'] (([] :: (b :: t)) ++ [[]]) =
          '/' :: (List.intercalate ['/'] (b :: t) ++ ['/']) := by
        rw [List.cons_append, intercalate_nil_cons '/' _ (by simp),
          intercalate_append_ne_nil '/' (b :: t) [[]] (by simp) (by simp),
          intercalate_single_seg]
      rw [hbp]
      simp
  have hne2 : List.intercalate ['/'] (([] :: bsegs) ++ [[]]) ++
      List.intercalate ['/'] (pinit ++ [plast]) ≠ [] := by
    rw [List.cons_append, intercalate_nil_cons '/' _ (by simp)]
    simp
  unfold joinPath
  rw [if_neg hp1, hpsplit, hbase, hsegments]
  unfold joinSegments dotsResolved
  rw [if_neg hcond, resolveDots_no_dots _ [] hnodots, List.nil_append, hjoined]
  unfold orSlash
  rw [if_neg hne2]

/- ### Claim C6: relative URLs follow standard URL-join semantics -/

theorem urljoinParsed_inherit (b : SplitUrl) (p : List Char)
    (hrel : b.scheme ∈ usesRelative) (hp : p ≠ []) :
    urljoinParsed b ⟨[], [], p⟩ p =
      unsplitUrl ⟨b.scheme, b.netloc, joinPath b.path p⟩ := by
  have h1 : joinScheme ⟨[], [], p⟩ b = b.scheme := by
    unfold joinScheme
    rw [if_pos rfl]
  have h2 : joinNetloc ⟨[], [], p⟩ b = b.netloc := by
    unfold joinNetloc
    rw [h1, if_pos (usesRelative_sub_usesNetloc _ hrel)]
  unfold urljoinParsed
  rw [h1, h2, if_neg (by push_neg; exact ⟨rfl, hrel⟩),
    if_neg (fun h => h.2 rfl), if_neg hp]

theorem urljoinList_root_relative (s n bp p : List Char)
    (hs : s ≠ []) (hsa : s.headI.isAlpha = true) (hsc : s.all isSchemeChar = true)
    (hsl : s.map Char.toLower = s) (hrel : s ∈ usesRelative)
    (hn : n ≠ []) (hnsl : ('/' : Char) ∉ n)
    (hbp : bp = [] ∨ bp.take 1 = ['/'])
    (hsplitp : splitUrl p = ⟨[], [], p⟩) (hpne : p ≠ []) :
    urljoinList (renderUrl s n bp) p =
      unsplitUrl ⟨s, n, joinPath bp p⟩ := by
  have hbase : renderUrl s n bp ≠ [] := by simp [renderUrl, hs]
  unfold urljoinList
  rw [if_neg hbase, if_neg hpne, splitUrl_render s n bp hs hsa hsc hsl hnsl hbp,
    hsplitp]
  exact urljoinParsed_inherit ⟨s, n, bp⟩ p hrel hpne

/-- C6: the URL-resolution step of `request` follows standard URL-join
semantics for relative paths: a path with a leading `/` replaces the root's
path, while a path without one preserves the root's path prefix and merges its
segments onto the root's existing (directory) path. -/
theorem finalUrl_relative_join (c : Client) (s n : List Char)
    (bsegs pinit : List (List Char)) (plast pa : List Char)
    (hs : s ≠ []) (hsa : s.headI.isAlpha = true) (hsc : s.all isSchemeChar = true)
    (hsl : s.map Char.toLower = s) (hrel : s ∈ usesRelative)
    (hn : n ≠ []) (hnsl : ('/' : Char) ∉ n)
    (hroot : c.rootUrl =
      ⟨renderUrl s n (List.intercalate ['/'] (([] :: bsegs) ++ [[]]))⟩)
    (hb : ∀ seg ∈ bsegs,
      seg ≠ [] ∧ ('/' : Char) ∉ seg ∧ seg ≠ ['.'] ∧ seg ≠ ['.', '.'])
    (hpa1 : pa.take 1 = ['/']) (hpa2 : pa.take 2 ≠ ['/', '/'])
    (hpadots : ∀ seg ∈ pa.splitOn '/', seg ≠ ['.'] ∧ seg ≠ ['.', '.'])
    (hpI : ∀ seg ∈ pinit, seg ≠ [] ∧ ('/' : Char) ∉ seg ∧ (':' : Char) ∉ seg ∧
      seg ≠ ['.'] ∧ seg ≠ ['.', '.'])
    (hpl : ('/' : Char) ∉ plast ∧ (':' : Char) ∉ plast ∧ plast ≠ ['.'] ∧
      plast ≠ ['.', '.'])
    (hne : pinit ≠ [] ∨ plast ≠ []) :
    c.finalUrl ⟨pa⟩ = ⟨renderUrl s n pa⟩ ∧
    c.finalUrl ⟨List.intercalate ['/'] (pinit ++ [plast])⟩ =
      ⟨renderUrl s n (List.intercalate ['/'] (([] :: bsegs) ++ [[]]) ++
        List.intercalate ['/'] (pinit ++ [plast]))⟩ := by
  have hbpshape : List.intercalate ['/'] (([] :: bsegs) ++ [[]]) =
      '/' :: List.intercalate ['/'] (bsegs ++ [[]]) := by
    rw [List.cons_append, intercalate_nil_cons '/' _ (by simp)]
  have hbp1 : (List.intercalate ['/'] (([] :: bsegs) ++ [[]])) = [] ∨
      (List.intercalate ['/'] (([] :: bsegs) ++ [[]])).take 1 = ['/'] := by
    rw [hbpshape]
    exact Or.inr rfl
  constructor
  · obtain ⟨pa₂, rfl⟩ : ∃ pa₂, pa = '/' :: pa₂ := by
      cases pa with
      | nil => simp at hpa1
      | cons c t =>
        rw [List.take_succ_cons] at hpa1
        simp only [List.cons.injEq] at hpa1
        exact ⟨t, by rw [hpa1.1]⟩
    have hpa2' : pa₂.take 1 ≠ ['/'] := by
      rw [List.take_succ_cons] at hpa2
      intro hcontra
      exact hpa2 (by rw [hcontra])
    show urljoin c.rootUrl ⟨'/' :: pa₂⟩ = ⟨renderUrl s n ('/' :: pa₂)⟩
    unfold urljoin
    rw [hroot]
    congr 1
    rw [show (⟨renderUrl s n (List.intercalate ['/'] (([] :: bsegs) ++ [[]]))⟩ :
        String).data = renderUrl s n (List.intercalate ['/'] (([] :: bsegs) ++ [[]]))
      from rfl]
    rw [urljoinList_root_relative s n _ ('/' :: pa₂) hs hsa hsc hsl hrel hn hnsl
      hbp1 (splitUrl_of_slash pa₂ hpa2') (by simp)]
    rw [joinPath_absolute_path _ ('/' :: pa₂) rfl hpadots]
    exact unsplitUrl_render s n ('/' :: pa₂) hs hn (Or.inr rfl)
  · obtain ⟨c₀, tail, hshape, hc₀⟩ := relative_path_shape pinit plast
      (fun seg hsg => ⟨(hpI seg hsg).1, (hpI seg hsg).2.1⟩) hpl.1 hne
    have hpne : List.intercalate ['/'] (pinit ++ [plast]) ≠ [] := by
      rw [hshape]
      simp
    have hcolon : (':' : Char) ∉ List.intercalate ['/'] (pinit ++ [plast]) := by
      refine colon_not_mem_intercalate _ ?_
      intro seg hsg
      rcases List.mem_append.mp hsg with h1 | h2
      · exact (hpI seg h1).2.2.1
      · rcases List.mem_singleton.mp h2 with rfl
        exact hpl.2.1
    show urljoin c.rootUrl ⟨List.intercalate ['/'] (pinit ++ [plast])⟩ = _
    unfold urljoin
    rw [hroot]
    congr 1
    rw [show (⟨renderUrl s n (List.intercalate ['/'] (([] :: bsegs) ++ [[]]))⟩ :
        String).data = renderUrl s n (List.intercalate ['/'] (([] :: bsegs) ++ [[]]))
      from rfl]
    rw [urljoinList_root_relative s n _ _ hs hsa hsc hsl hrel hn hnsl hbp1
      (splitUrl_relative _ hcolon ⟨c₀, tail, hshape, hc₀⟩) hpne]
    rw [joinPath_relative_merge bsegs pinit plast hb
      (fun seg hsg => ⟨(hpI seg hsg).1, (hpI seg hsg).2.1, (hpI seg hsg).2.2.2.1,
        (hpI seg hsg).2.2.2.2⟩)
      ⟨hpl.1, hpl.2.2.1, hpl.2.2.2⟩ hne]
    refine unsplitUrl_render s n _ hs hn (Or.inr ?_)
    rw [hbpshape]
    rfl

/-- Witness for C6: against the demonstration client's root
`http://dashboard.snapcraft.io/dev/api/`, the leading-slash path `/api/v2/acl`
replaces the root's path, and the relative path `snap-push/` is merged onto
the root's directory path. -/
theorem finalUrl_relative_join_witness :
    demoClient.finalUrl "/api/v2/acl" =
      "http://dashboard.snapcraft.io/api/v2/acl" ∧
    demoClient.finalUrl "snap-push/" =
      "http://dashboard.snapcraft.io/dev/api/snap-push/" := by
  have h := finalUrl_relative_join demoClient "http".data
    "dashboard.snapcraft.io".data ["dev".data, "api".data] ["snap-push".data]
    [] "/api/v2/acl".data
    (by decide) (by decide) (by decide) (by decide) (by decide) (by decide)
    (by decide) (by decide) (by decide) (by decide) (by decide) (by decide)
    (by decide) (by decide) (by decide)
  exact h

end Snapcraft
